import Mathlib

/-!
Verification of the file-backed key/value persistence core of the
power-eagle-mods repository, consisting of:

* the deep-traversal helpers `getDeep` / `setDeep` from
  `lib/utils/_traverse.js`,
* the `JsonFile` persistent store from `lib/utils/_jsonFile.js`
  (src/unnamed/part_004), including its mutation-intercepting `data`
  Proxy, its lock-acquisition loop, its background watcher and its
  process-wide instance registry,
* the `Config` scoped-configuration facade from src/unnamed/part_002,
  including canonical-key construction and the large-operand
  ("upstream") reference protocol.

JSON documents are modelled by the inductive `JVal`; JavaScript's
distinction between `undefined` and `null` is modelled by `JSLike`.
File contents are modelled as the parsed JSON value
(`JSON.parse ∘ JSON.stringify` is the identity on this value type),
and timestamps as natural-number counters.  JavaScript string
comparison (code-unit order; `localeCompare` restricted to ASCII) is
modelled by `strLe` below.
-/

/-! ## String order (models JavaScript string comparison) -/

/-- Lexicographic comparison of character lists by code point; models the
order JavaScript uses for `localeCompare` on plain ASCII strings and for
`<`/`===` on strings. -/
def charListLe : List Char → List Char → Bool
  | [], _ => true
  | _ :: _, [] => false
  | a :: as, b :: bs => if a = b then charListLe as bs else decide (a < b)

/-- Order on strings induced by `charListLe`. -/
def strLe (a b : String) : Prop := charListLe a.data b.data = true

instance : DecidableRel strLe := fun a b =>
  inferInstanceAs (Decidable (charListLe a.data b.data = true))

theorem charListLe_total (as bs : List Char) :
    charListLe as bs = true ∨ charListLe bs as = true := by
  induction as generalizing bs with
  | nil => left; rfl
  | cons a as ih =>
    cases bs with
    | nil => right; rfl
    | cons b bs =>
      by_cases hab : a = b
      · subst hab
        simp only [charListLe, if_pos rfl]
        exact ih bs
      · have hne : b ≠ a := fun h => hab h.symm
        simp only [charListLe, if_neg hab, if_neg hne]
        rcases lt_trichotomy a b with h | h | h
        · left; exact decide_eq_true h
        · exact absurd h hab
        · right; exact decide_eq_true h

theorem charListLe_trans (as bs cs : List Char)
    (h1 : charListLe as bs = true) (h2 : charListLe bs cs = true) :
    charListLe as cs = true := by
  induction as generalizing bs cs with
  | nil => rfl
  | cons a as ih =>
    cases bs with
    | nil => exact absurd h1 (by simp [charListLe])
    | cons b bs =>
      cases cs with
      | nil => exact absurd h2 (by simp [charListLe])
      | cons c cs =>
        by_cases hab : a = b <;> by_cases hbc : b = c
        · subst hab; subst hbc
          simp only [charListLe, if_pos rfl] at h1 h2 ⊢
          exact ih bs cs h1 h2
        · subst hab
          simp only [charListLe, if_pos rfl, if_neg hbc] at h1 h2 ⊢
          exact h2
        · subst hbc
          simp only [charListLe, if_neg hab] at h1 ⊢
          exact h1
        · simp only [charListLe, if_neg hab, if_neg hbc, decide_eq_true_eq] at h1 h2
          have hlt : a < c := lt_trans h1 h2
          have hac : a ≠ c := ne_of_lt hlt
          simp only [charListLe, if_neg hac, decide_eq_true_eq]
          exact hlt

theorem charListLe_antisymm (as bs : List Char)
    (h1 : charListLe as bs = true) (h2 : charListLe bs as = true) : as = bs := by
  induction as generalizing bs with
  | nil =>
    cases bs with
    | nil => rfl
    | cons b bs => exact absurd h2 (by simp [charListLe])
  | cons a as ih =>
    cases bs with
    | nil => exact absurd h1 (by simp [charListLe])
    | cons b bs =>
      by_cases hab : a = b
      · subst hab
        simp only [charListLe, if_pos rfl] at h1 h2
        rw [ih bs h1 h2]
      · have hne : b ≠ a := fun h => hab h.symm
        simp only [charListLe, if_neg hab, if_neg hne, decide_eq_true_eq] at h1 h2
        exact absurd h2 (not_lt_of_lt h1)

theorem strLe_antisymm {a b : String} (h1 : strLe a b) (h2 : strLe b a) : a = b := by
  cases a; cases b
  exact congrArg String.mk (charListLe_antisymm _ _ h1 h2)

/-! ## Association-list operations

JavaScript objects and the process-wide `Map` are modelled as ordered
association lists: `obj[k] = v` updates the value in place when the key
exists (keeping its position, as JS preserves property-insertion order)
and appends a new entry otherwise; `delete obj[k]` removes the entry. -/

def lookupAssoc {α : Type} : List (String × α) → String → Option α
  | [], _ => none
  | (k1, v1) :: rest, k => if k1 = k then some v1 else lookupAssoc rest k

def setAssoc {α : Type} : List (String × α) → String → α → List (String × α)
  | [], k, v => [(k, v)]
  | (k1, v1) :: rest, k, v =>
    if k1 = k then (k1, v) :: rest else (k1, v1) :: setAssoc rest k v

def removeAssoc {α : Type} : List (String × α) → String → List (String × α)
  | [], _ => []
  | (k1, v1) :: rest, k =>
    if k1 = k then removeAssoc rest k else (k1, v1) :: removeAssoc rest k

/-! ## JSON documents and JavaScript values -/

/-- A parsed JSON document: the in-memory mirror of one backing file.
Numbers are modelled as integers (no claim involves fractional values). -/
inductive JVal where
  | null
  | bool (b : Bool)
  | num (n : Int)
  | str (s : String)
  | arr (elems : List JVal)
  | obj (fields : List (String × JVal))

/-- A JavaScript expression value: either `undefined` or a JSON value.
JSON.parse never yields `undefined`, but property lookups do, and the
`Config.setdefault` bug hinges on the `undefined` / `null` distinction. -/
inductive JSLike where
  | undefined
  | val (v : JVal)

/-- Errors raised by the modelled JavaScript code. `nullTraverse` and
`nonObject` are the two explicit `throw new Error(...)` sites of
`_traverse`; `setNonObject` the explicit throw of the final-assignment
step; `typeError` models a JavaScript TypeError (calling a method that
does not exist, or assigning a property of `null`). -/
inductive Err where
  | nullTraverse
  | nonObject
  | setNonObject
  | typeError
  deriving DecidableEq

/-! ## Path splitting and `parseInt` -/

/-- Single-character split, matching JavaScript `String.prototype.split`
with a one-character separator: `"a/b" → ["a","b"]`, `"" → [""]`,
`"a//b" → ["a","","b"]`. -/
def splitOnChar (sep : Char) : List Char → List (List Char)
  | [] => [[]]
  | c :: rest =>
    let r := splitOnChar sep rest
    if c = sep then [] :: r
    else
      match r with
      | h :: t => (c :: h) :: t
      | [] => [[c]]

/-- Model of `path.split('/')`, as used by every `_traverse.js` entry point. -/
def splitPath (s : String) : List String :=
  (splitOnChar '/' s.data).map (fun cs => String.mk cs)

/-- Leading decimal digits of a character list, if any. -/
def digitsVal (cs : List Char) : Option Nat :=
  let ds := cs.takeWhile (fun c => c.isDigit)
  if ds.isEmpty then none
  else some (ds.foldl (fun a c => a * 10 + (c.toNat - 48)) 0)

/-- JavaScript `parseInt(key)` as used on array indices: skip leading
whitespace, optional sign, then leading base-10 digits; `none` models
`NaN`.  (The `0x` hex prefix is not modelled; no path segment in the
repository uses it.) -/
def parseIntOpt (s : String) : Option Int :=
  let cs := s.data.dropWhile (fun c => c == ' ' || c == '\t' || c == '\n' || c == '\r')
  match cs with
  | '-' :: rest => (digitsVal rest).map (fun n => -(n : Int))
  | '+' :: rest => (digitsVal rest).map (fun n => (n : Int))
  | rest => (digitsVal rest).map (fun n => (n : Int))

/-! ## `_traverse.js`: getDeep and setDeep -/

/-- One step of `_traverse(obj, keys)` without `createMissing`, as run by
`getDeep`: traversing through `null`/`undefined` throws; an array consumes
the key via `parseInt` (a `NaN` or out-of-range index reads as
`undefined`); an object reads the property (`undefined` when absent); any
other value throws the non-object error. -/
def travStep (cur : JSLike) (k : String) : Except Err JSLike :=
  match cur with
  | .undefined => .error .nullTraverse
  | .val .null => .error .nullTraverse
  | .val (.arr es) =>
    match parseIntOpt k with
    | none => .ok .undefined
    | some i =>
      if i < 0 then .ok .undefined
      else
        match es.get? i.toNat with
        | some v => .ok (.val v)
        | none => .ok .undefined
  | .val (.obj fs) =>
    match lookupAssoc fs k with
    | some v => .ok (.val v)
    | none => .ok .undefined
  | .val _ => .error .nonObject

/-- Model of `getDeep(obj, path)`: split the path on `/` and walk the segments. -/
def getDeep (doc : JVal) (path : String) : Except Err JSLike :=
  (splitPath path).foldlM travStep (.val doc)

/-- The recursive core of `setDeep(obj, path, value)`: walks the non-final
segments with `createMissing = true` (missing object properties are created
as `{}`; arrays are extended with `{}` placeholders up to the index), then
performs the final assignment.  The returned Bool records whether the
operation assigned, created or extended a property of the ROOT object —
exactly the accesses that go through the `data` Proxy of `_jsonFile.js`
and hence fire its `set` trap (the trap only intercepts top-level property
writes; mutations of nested objects reached through the proxy do not
trigger it).  In JavaScript the trap's `save()` is a fire-and-forget async
call whose file write runs after the synchronous mutation completes, so a
fired trap persists the fully mutated document; this is how the caller
(`JsonFile.set` below) interprets the flag.  A raised error leaves the
document unchanged: the only in-place mutations before the final
assignment are creations of fresh `{}` nodes, and a walk that has entered
a freshly created node can no longer throw. -/
def setDeepGo : JSLike → List String → String → JVal → Bool → Except Err (JVal × Bool)
  | cur, [], lastKey, value, isRoot =>
    match cur with
    | .undefined => .error .setNonObject
    | .val (.arr es) =>
      match parseIntOpt lastKey with
      | some i =>
        if i < 0 then
          -- target[-k] = value: a non-index property; JSON.stringify drops it,
          -- so the serialized document is unchanged.  The proxy trap still fires.
          .ok (.arr es, isRoot)
        else
          let n := i.toNat
          let es1 := if es.length ≤ n then es ++ List.replicate (n + 1 - es.length) JVal.null else es
          .ok (.arr (es1.set n value), isRoot)
      | none =>
        -- target[NaN] = value: non-index property, dropped by serialization.
        .ok (.arr es, isRoot)
    | .val (.obj fs) => .ok (.obj (setAssoc fs lastKey value), isRoot)
    | .val .null => .error .typeError
    | .val _ => .error .setNonObject
  | cur, k :: rest, lastKey, value, isRoot =>
    match cur with
    | .undefined => .error .nullTraverse
    | .val .null => .error .nullTraverse
    | .val (.arr es) =>
      match parseIntOpt k with
      | some i =>
        if i < 0 then
          (setDeepGo .undefined rest lastKey value false).map (fun _ => (JVal.arr es, false))
        else
          let n := i.toNat
          let ext := es.length ≤ n
          let es1 := if ext then es ++ List.replicate (n + 1 - es.length) (JVal.obj []) else es
          let child : JSLike :=
            match es1.get? n with
            | some v => .val v
            | none => .undefined
          do
            let p ← setDeepGo child rest lastKey value false
            .ok (.arr (es1.set n p.1), (isRoot && ext) || p.2)
      | none =>
        (setDeepGo .undefined rest lastKey value false).map (fun _ => (JVal.arr es, false))
    | .val (.obj fs) =>
      match lookupAssoc fs k with
      | some child =>
        do
          let p ← setDeepGo (.val child) rest lastKey value false
          .ok (.obj (setAssoc fs k p.1), p.2)
      | none =>
        -- createMissing: `curr[key] = {}` — fires the proxy set trap when
        -- `curr` is the root object.
        do
          let p ← setDeepGo (.val (.obj [])) rest lastKey value false
          .ok (.obj (setAssoc fs k p.1), isRoot || p.2)
    | .val _ => .error .nonObject

/-- Model of `setDeep(obj, path, value)`: `keys.pop()` yields the last segment, the
rest are walked with `createMissing`. The Bool is the proxy-trap flag of
`setDeepGo`. -/
def setDeep (doc : JVal) (path : String) (value : JVal) : Except Err (JVal × Bool) :=
  let ks := splitPath path
  setDeepGo (.val doc) ks.dropLast (ks.getLast?.getD "") value true

/-! ## `_jsonFile.js`: the JsonFile persistent store

One `JsonFileState` models one live `JsonFile` instance together with its
backing file.  The backing file is modelled as its parsed JSON contents
(`none` = missing or unparsable) plus a modification-time counter.

The crucial aliasing fact of the source is modelled explicitly: the `data`
Proxy is created once, in the constructor, wrapping the object `this._data`
pointed to at that moment (`proxyDoc`).  `loadSync` REPLACES `this._data`
with a freshly parsed object (`underData`), so after any post-construction
load the proxy still wraps the old object; `aliased` records whether the
two are still the same object, so that mutations through the proxy are
reflected in `underData` exactly while they alias.  All reads and writes
(`get`/`set`/`setDefault`/`pop`/`save`) go through `this.data`, i.e.
`proxyDoc`.

Locking during `load`/`save` is uncontended in this single-process model
(acquire and release always pair); the lock-acquisition loop itself is
modelled separately below. -/

structure JsonFileState where
  proxyDoc : JVal
  underData : JVal
  aliased : Bool
  fileDoc : Option JVal
  fileMtime : Nat
  lastModified : Nat
  batchMode : Bool
  queuedSave : Bool

namespace JsonFile

/-- Model of `save()` when batch mode is off: serialize `this.data` (the proxy),
write the file, record the new modification time. -/
def saveWrite (st : JsonFileState) : JsonFileState :=
  { st with
    fileDoc := some st.proxyDoc
    fileMtime := st.fileMtime + 1
    lastModified := st.fileMtime + 1 }

/-- The body of the proxy `set`/`deleteProperty` trap applied after an
in-memory mutation: `d` is the mutated document, `trap` whether a
top-level property access fired the trap.  If it fired: batch mode queues
the save, otherwise `save()` runs (the async write executes after the
synchronous mutation finished, hence writes the final document `d`). -/
def onMutation (st : JsonFileState) (d : JVal) (trap : Bool) : JsonFileState :=
  let st1 := { st with
    proxyDoc := d
    underData := if st.aliased then d else st.underData }
  if trap then
    if st1.batchMode then { st1 with queuedSave := true } else saveWrite st1
  else st1

/-- Model of `set(key, value)`: `setDeep(this.data, key, value)`. -/
def set (st : JsonFileState) (key : String) (value : JVal) : Except Err JsonFileState :=
  (setDeep st.proxyDoc key value).map (fun p => onMutation st p.1 p.2)

/-- Model of `get(key, defaultValue)`: `getDeep(this.data, key)`, returning
`defaultValue` when the traversal throws. -/
def get (st : JsonFileState) (key : String) (dflt : JSLike) : JSLike :=
  match getDeep st.proxyDoc key with
  | .ok r => r
  | .error _ => dflt

/-- Model of `loadSync()` executed after construction (from `load()` or the
watcher): replaces `this._data` with the freshly parsed file contents and
records the file's mtime; on a read/parse failure `this._data = {}` and
the mtime recording is skipped.  Either way `this._data` now points to a
new object, while the `data` proxy still wraps the constructor-time one:
`aliased` becomes false. -/
def loadSyncPost (st : JsonFileState) : JsonFileState :=
  match st.fileDoc with
  | some d => { st with underData := d, lastModified := st.fileMtime, aliased := false }
  | none => { st with underData := .obj [], aliased := false }

/-- The constructor: `loadSync()` runs first, then `_setupProxy()` wraps
the object `this._data` holds at that moment, so initially the proxy
target and `this._data` alias.  `this._lastModified` starts at 0 and is
set by `loadSync` only when the file was read successfully. -/
def construct (fileDoc : Option JVal) (fileMtime : Nat) : JsonFileState :=
  { proxyDoc := fileDoc.getD (.obj [])
    underData := fileDoc.getD (.obj [])
    aliased := true
    fileDoc := fileDoc
    fileMtime := fileMtime
    lastModified := if fileDoc.isSome then fileMtime else 0
    batchMode := false
    queuedSave := false }

/-- An external process rewrites the backing file (new contents, newer
mtime); the store's in-memory state is untouched. -/
def externalWrite (st : JsonFileState) (d : JVal) (newMtime : Nat) : JsonFileState :=
  { st with fileDoc := some d, fileMtime := newMtime }

/-- One tick of the `_setupWatcher` interval: stat the file (a missing
file is swallowed by the catch); if its mtime is newer than the recorded
one, `load()` — which acquires the lock and runs `loadSync`. -/
def watcherTick (st : JsonFileState) : JsonFileState :=
  match st.fileDoc with
  | none => st
  | some _ => if st.lastModified < st.fileMtime then loadSyncPost st else st

end JsonFile

/-- The method and accessor names defined in the `JsonFile` class body of
`_jsonFile.js` (src/unnamed/part_004); the private `#acquireLock` /
`#releaseLock` are not reachable as properties.  Neither `delete` nor
`getAll` is defined, although `Config` (src/unnamed/part_002) invokes
both: accessing them yields `undefined` and calling that raises a
TypeError. -/
def jsonFileMethods : List String :=
  ["getInstance", "_setupProxy", "_setupWatcher", "loadSync", "load", "save",
   "beginBatch", "endBatch", "get", "set", "setDefault", "pop", "close"]

/-! ## The lock-acquisition loop of `JsonFile.#acquireLock`

Modelled for a static environment: no other process creates or removes the
sentinel while this acquisition runs (so the `wx`-creation race and its
`EEXIST` re-entry are unreachable), and the synchronous steps of an
iteration take no time, so the clock advances only by the
`lockRetryInterval` sleeps.  `lockMaxAge` is in seconds (the code compares
`lockAge > lockMaxAge * 1000` milliseconds). -/

structure LockCfg where
  retryInterval : Nat
  timeout : Nat
  maxAge : Nat
  deriving DecidableEq

/-- Result of one acquisition: `success elapsed sleeps unlinks` (elapsed
milliseconds, number of retry sleeps, number of stale sentinels deleted),
`timeout elapsed sleeps` for the thrown timeout error, or `fuelOut` when
the modelling fuel is exhausted. -/
inductive LockOutcome where
  | success (elapsed sleeps unlinks : Nat)
  | timeout (elapsed sleeps : Nat)
  | fuelOut
  deriving DecidableEq

/-- The `while (fs.existsSync(this._lockPath))` loop, entered at time `t`
with `s` sleeps taken so far.  Loop body, in source order: stat the
sentinel; if `now - ctimeMs > lockMaxAge * 1000`, unlink it and break
(after which the exclusive create succeeds — static environment — hence
`success`); yield (`setImmediate`, no time passes); if
`now - start > lockTimeout`, throw the timeout error; sleep
`lockRetryInterval` and re-test. -/
def acquireGo (cfg : LockCfg) (start ctime : Nat) : Nat → Nat → Nat → LockOutcome
  | _, _, 0 => .fuelOut
  | t, s, fuel + 1 =>
    if cfg.maxAge * 1000 < t - ctime then .success (t - start) s 1
    else if cfg.timeout < t - start then .timeout (t - start) s
    else acquireGo cfg start ctime (t + cfg.retryInterval) (s + 1) fuel

/-- Model of `#acquireLock()`: reentrant return when this process already holds the
lock; otherwise, if the sentinel does not exist the exclusive create
succeeds immediately; otherwise the retry loop runs.  `ctime` is the
sentinel's creation time, `start` the value of `Date.now()` on entry. -/
def acquireLock (cfg : LockCfg) (holderIsSelf lockPresent : Bool) (start ctime : Nat)
    (fuel : Nat) : LockOutcome :=
  if holderIsSelf then .success 0 0 0
  else if lockPresent then acquireGo cfg start ctime start 0 fuel
  else .success 0 0 0

/-- The default `options`: `lockRetryInterval` 100ms, `lockTimeout`
5000ms, `lockMaxAge` 30s. -/
def defaultLockCfg : LockCfg := { retryInterval := 100, timeout := 5000, maxAge := 30 }

/-! ## The process-wide instance registry of `JsonFile`

`JsonFile._instances` is a `Map` keyed by file path; `getInstance`
creates an instance only when none is registered, otherwise it returns
the registered one and its `options` argument is never consulted;
`close()` deregisters.  `StoreInst.sid` gives instances an identity so
that "the same instance" is expressible. -/

structure StoreOptions where
  lockRetryInterval : Option Nat
  lockTimeout : Option Nat
  lockMaxAge : Option Nat
  watchInterval : Option Nat
  deriving DecidableEq

/-- JavaScript `options.x || default`: an absent value and a falsy `0`
both fall back to the default. -/
def orDefault (o : Option Nat) (d : Nat) : Nat :=
  match o with
  | some n => if n = 0 then d else n
  | none => d

structure StoreCfg where
  lockRetryInterval : Nat
  lockTimeout : Nat
  lockMaxAge : Nat
  watchInterval : Nat
  deriving DecidableEq

/-- The configuration fixed by the constructor from its `options`. -/
def resolveCfg (o : StoreOptions) : StoreCfg :=
  { lockRetryInterval := orDefault o.lockRetryInterval 100
    lockTimeout := orDefault o.lockTimeout 5000
    lockMaxAge := orDefault o.lockMaxAge 30
    watchInterval := orDefault o.watchInterval 3000 }

structure StoreInst where
  sid : Nat
  cfg : StoreCfg
  deriving DecidableEq

structure Registry where
  entries : List (String × StoreInst)
  nextSid : Nat
  deriving DecidableEq

namespace JsonFile

/-- Model of `JsonFile.getInstance(filename, options)`: return the registered
instance if any (ignoring `options`), else construct and register one. -/
def getInstance (reg : Registry) (filename : String) (options : StoreOptions) :
    StoreInst × Registry :=
  match lookupAssoc reg.entries filename with
  | some inst => (inst, reg)
  | none =>
    let inst : StoreInst := { sid := reg.nextSid, cfg := resolveCfg options }
    (inst, { entries := setAssoc reg.entries filename inst, nextSid := reg.nextSid + 1 })

/-- Model of `close()`: clear the watcher interval (not modelled) and deregister. -/
def close (reg : Registry) (filename : String) : Registry :=
  { reg with entries := removeAssoc reg.entries filename }

end JsonFile

/-! ## Canonical keys: `Config.#parseKeyWithAttributes` and
`Config.#buildKeyWithAttributes` (src/unnamed/part_002) -/

/-- Attribute sets, in property-insertion order (JavaScript object). -/
abbrev AttrList := List (String × String)

/-- Split a character list at the first occurrence of `sep`:
`some (before, after)` when present. -/
def splitFirst (sep : Char) : List Char → Option (List Char × List Char)
  | [] => none
  | c :: rest =>
    if c = sep then some ([], rest)
    else (splitFirst sep rest).map (fun p => (c :: p.1, p.2))

/-- JavaScript line terminators, which `.` in a regex never matches. -/
def isLineTerm (c : Char) : Bool :=
  c == '\n' || c == '\r' || c.toNat == 0x2028 || c.toNat == 0x2029

/-- The loop over `attrsStr.split('&')`: each piece is split on `=`,
destructured as `[k, v]` (first two pieces), and stored via
`attributes[k] = v` when both are truthy (non-empty). -/
def parseAttrPairs (pieces : List (List Char)) : AttrList :=
  pieces.foldl
    (fun acc piece =>
      match splitOnChar '=' piece with
      | k :: v :: _ =>
        if k.isEmpty || v.isEmpty then acc
        else setAssoc acc (String.mk k) (String.mk v)
      | _ => acc)
    []

/-- Model of `#parseKeyWithAttributes(key)`: `key.match(/^\x7b([^\x7d]+)\x7d(.+)$/)`.
Since `[^\x7d]+` cannot cross a closing brace, a match decomposes the key
at the FIRST closing brace; it requires a leading opening brace, at least
one attribute character, and a non-empty remainder free of line
terminators (`.` does not match them, `$` is end-of-input).  On no match
the attribute set is empty and the key is returned whole. -/
def parseKeyWithAttributes (key : String) : AttrList × String :=
  match key.data with
  | c :: rest =>
    if c = '\x7b' then
      match splitFirst '\x7d' rest with
      | some (attrsChars, keyChars) =>
        if attrsChars.isEmpty || keyChars.isEmpty || keyChars.any isLineTerm then
          ([], key)
        else (parseAttrPairs (splitOnChar '&' attrsChars), String.mk keyChars)
      | none => ([], key)
    else ([], key)
  | [] => ([], key)

/-- The sort relation of `#buildKeyWithAttributes`: entries compared by
attribute name via `localeCompare` (modelled as code-point order). -/
def attrLE (p q : String × String) : Prop := strLe p.1 q.1

instance : DecidableRel attrLE := fun p q =>
  inferInstanceAs (Decidable (charListLe p.1.data q.1.data = true))

instance : IsTotal (String × String) attrLE :=
  ⟨fun p q => charListLe_total p.1.data q.1.data⟩

instance : IsTrans (String × String) attrLE :=
  ⟨fun p q s h1 h2 => charListLe_trans p.1.data q.1.data s.1.data h1 h2⟩

/-- Model of `#buildKeyWithAttributes(attributes, key)`: empty attributes return
the key unchanged; otherwise `Object.entries(attributes)` (insertion
order) is stably sorted by name and serialized as
`\x7ba1=v1&a2=v2\x7dkey`.  JavaScript's `Array.prototype.sort` is stable,
as is `List.insertionSort`. -/
def buildKeyWithAttributes (attributes : AttrList) (key : String) : String :=
  if attributes.isEmpty then key
  else
    let sortedEntries := List.insertionSort attrLE attributes
    let attrsStr := String.intercalate "&" (sortedEntries.map (fun p => p.1 ++ "=" ++ p.2))
    "\x7b" ++ attrsStr ++ "\x7d" ++ key

/-- Model of `FlagHandler.processFlags(scope, flags, attributes)`: fold the
registered handlers over the attribute set in flag order (the `scope`
argument is unused in the source body; flags without a registered handler
are skipped). -/
def processFlags (handlers : String → Option (AttrList → AttrList))
    (flags : List String) (attributes : AttrList) : AttrList :=
  flags.foldl
    (fun result flag =>
      match handlers flag with
      | some h => h result
      | none => result)
    attributes

/-- Model of `Config.#buildKey(key)`: re-parse any existing attribute prefix, apply
the flag transforms, re-serialize in sorted order. -/
def buildKey (handlers : String → Option (AttrList → AttrList))
    (flags : List String) (key : String) : String :=
  let p := parseKeyWithAttributes key
  buildKeyWithAttributes (processFlags handlers flags p.1) p.2

/-- The default flag-handler registry of src/unnamed/part_002:
`pluginOnly` injects the ambient plugin id as attribute `pluginId`;
`folderOnly` sets attribute `folderOnly` to `true` (stringified when
serialized into the key). -/
def registeredHandlers (pluginId : String) : String → Option (AttrList → AttrList) :=
  fun flag =>
    if flag = "pluginOnly" then some (fun attrs => setAssoc attrs "pluginId" pluginId)
    else if flag = "folderOnly" then some (fun attrs => setAssoc attrs "folderOnly" "true")
    else none

/-- The empty handler registry; a `Config` built with `flags = []` never
consults the registry, so every claim below may use it. -/
def noHandlers : String → Option (AttrList → AttrList) := fun _ => none

/-! ## `Config`: the scoped-configuration facade (src/unnamed/part_002) -/

/-- A target descriptor (an Eagle item or folder object).  The reference
protocol compares descriptors solely by their `filePath`; `itemId` stands
for the object's remaining fields. -/
structure Descriptor where
  filePath : String
  itemId : String
  deriving DecidableEq

/-- The comparator of `Config.#areArraysEqual`:
`a.filePath.localeCompare(b.filePath)`. -/
def descLE (a b : Descriptor) : Prop := strLe a.filePath b.filePath

instance : DecidableRel descLE := fun a b =>
  inferInstanceAs (Decidable (charListLe a.filePath.data b.filePath.data = true))

instance : IsTotal Descriptor descLE :=
  ⟨fun a b => charListLe_total a.filePath.data b.filePath.data⟩

instance : IsTrans Descriptor descLE :=
  ⟨fun a b c h1 h2 => charListLe_trans a.filePath.data b.filePath.data c.filePath.data h1 h2⟩

/-- Model of `Config.#areArraysEqual(arr1, arr2)`: false on length mismatch, else
sort both by `filePath` and compare element-wise by `filePath ===`. -/
def areArraysEqual (arr1 arr2 : List Descriptor) : Bool :=
  if arr1.length = arr2.length then
    let sorted1 := List.insertionSort descLE arr1
    let sorted2 := List.insertionSort descLE arr2
    (sorted1.zip sorted2).all (fun p => p.1.filePath == p.2.filePath)
  else false

/-- The arguments bound by `supplyArgs`: an item array, a folder array, or
none.  (A single non-array item or folder fails the `Array.isArray` tests
of `#shouldUseUpstream` and behaves like `noArgs` there.) -/
inductive TargetArgs where
  | noArgs
  | itemList (items : List Descriptor)
  | folderList (folders : List Descriptor)

/-- The item/folder array the argument set carries. -/
def targetList : TargetArgs → List Descriptor
  | .noArgs => []
  | .itemList l => l
  | .folderList l => l

/-- One `Config` instance after `supplyArgs`, with its resolved direct
store (`cache`) and the library-scope store used by the upstream
protocol. -/
structure ConfigS where
  flags : List String
  args : TargetArgs
  keyUpstreamToggle : Bool
  keyUpstreamThreshold : Nat
  cache : JsonFileState
  libraryStore : JsonFileState

namespace Config

/-- Model of `#shouldUseUpstream()`: false when the toggle is off, else true iff
the bound array's length exceeds the threshold. -/
def shouldUseUpstream (c : ConfigS) : Bool :=
  if !c.keyUpstreamToggle then false
  else decide ((targetList c.args).length > c.keyUpstreamThreshold)

/-- The JSON object stored for a descriptor inside a reference record
(`libraryConfig.set('@refId', affected)` serializes the item objects). -/
def descToJVal (d : Descriptor) : JVal :=
  .obj [("filePath", .str d.filePath), ("id", .str d.itemId)]

/-- Model of `Config.get(key)`.  The upstream branch (`#getUpstream`) iterates
`Object.entries(libraryConfig.getAll())`, but the `JsonFile` class defines
no `getAll` method (see `jsonFileMethods`), so the call raises a
TypeError before anything is read.  The direct branch delegates to
`JsonFile.get` (whose `defaultValue` parameter defaults to `null`). -/
def get (handlers : String → Option (AttrList → AttrList)) (c : ConfigS)
    (key : String) : Except Err JSLike :=
  if shouldUseUpstream c then .error .typeError
  else .ok (JsonFile.get c.cache (buildKey handlers c.flags key) (.val .null))

/-- Model of `Config.set(key, value)`.  The upstream branch (`#storeUpstream`)
stores the reference record `@refId → affected descriptors` and then the
value under the key extended with `ref = refId` — both via `JsonFile.set`,
which exists.  `refId` is produced by `Math.random()`; it is passed in as
a parameter here.  The direct branch stores under the canonical key. -/
def set (handlers : String → Option (AttrList → AttrList)) (refId : String)
    (c : ConfigS) (key : String) (value : JVal) : Except Err ConfigS :=
  if shouldUseUpstream c then do
    let lib1 ← JsonFile.set c.libraryStore ("@" ++ refId)
      (.arr ((targetList c.args).map descToJVal))
    let p := parseKeyWithAttributes key
    let dataKey := buildKeyWithAttributes (setAssoc p.1 "ref" refId) p.2
    let lib2 ← JsonFile.set lib1 dataKey value
    .ok { c with libraryStore := lib2 }
  else
    (JsonFile.set c.cache (buildKey handlers c.flags key) value).map
      (fun st => { c with cache := st })

/-- Model of `Config.delete(key)`.  The upstream branch iterates
`Object.entries(libraryConfig.getAll())` — no `getAll` method exists, so
it raises a TypeError.  The direct branch calls
`this.#getCache().delete(this.#buildKey(key))` — the `JsonFile` class
defines no `delete` method either (see `jsonFileMethods`), so accessing
it yields `undefined` and the call raises a TypeError. -/
def delete (_handlers : String → Option (AttrList → AttrList)) (c : ConfigS)
    (_key : String) : Except Err ConfigS :=
  if shouldUseUpstream c then .error .typeError
  else .error .typeError

/-- Model of `Config.pop(key)`: `const value = this.get(key); this.delete(key);
return value;`. -/
def pop (handlers : String → Option (AttrList → AttrList)) (c : ConfigS)
    (key : String) : Except Err (JSLike × ConfigS) := do
  let value ← Config.get handlers c key
  let c1 ← Config.delete handlers c key
  .ok (value, c1)

/-- Model of `Config.setdefault(key, value)`: read the key; store and return
`value` only when the read yields strictly `undefined` (`===`); otherwise
return the read result unchanged. -/
def setdefault (handlers : String → Option (AttrList → AttrList)) (refId : String)
    (c : ConfigS) (key : String) (value : JVal) : Except Err (JSLike × ConfigS) := do
  let existingValue ← Config.get handlers c key
  match existingValue with
  | .undefined => (Config.set handlers refId c key value).map (fun c1 => (.val value, c1))
  | ev => .ok (ev, c)

end Config

/-! ## Helper lemmas -/

instance : IsAntisymm String strLe := ⟨fun _ _ h1 h2 => strLe_antisymm h1 h2⟩

instance : IsTotal String strLe := ⟨fun a b => charListLe_total a.data b.data⟩

instance : IsTrans String strLe := ⟨fun a b c h1 h2 => charListLe_trans a.data b.data c.data h1 h2⟩

/-- Two sorted attribute lists that are permutations of each other and have
duplicate-free names are equal (the name order only partly
determines the element order, so name-distinctness is needed). -/
theorem sorted_perm_eq_of_nodup_names {l1 l2 : AttrList} (hp : l1.Perm l2)
    (hs1 : List.Sorted attrLE l1) (hs2 : List.Sorted attrLE l2)
    (hn : (l1.map Prod.fst).Nodup) : l1 = l2 := by
  induction l1 generalizing l2 with
  | nil => exact (hp.symm.eq_nil).symm
  | cons a t1 ih =>
    cases l2 with
    | nil => exact absurd hp.length_eq (by simp)
    | cons b t2 =>
      have ha : a ∈ b :: t2 := hp.subset (List.mem_cons_self a t1)
      have hb : b ∈ a :: t1 := hp.symm.subset (List.mem_cons_self b t2)
      have hnc : a.1 ∉ t1.map Prod.fst ∧ (t1.map Prod.fst).Nodup := by
        rw [List.map_cons] at hn
        exact List.nodup_cons.mp hn
      have hab : a = b := by
        rcases List.mem_cons.mp ha with h | ha2
        · exact h
        rcases List.mem_cons.mp hb with h | hb2
        · exact h.symm
        have h1 : attrLE a b := List.rel_of_sorted_cons hs1 b hb2
        have h2 : attrLE b a := List.rel_of_sorted_cons hs2 a ha2
        have hfst : a.1 = b.1 := strLe_antisymm h1 h2
        exact absurd (hfst ▸ List.mem_map_of_mem Prod.fst hb2) hnc.1
      subst hab
      have ht : t1.Perm t2 := hp.cons_inv
      rw [ih ht hs1.of_cons hs2.of_cons hnc.2]

/-- A `setDeep` walk that is not at the root never reports a fired proxy
trap: only top-level property accesses go through the proxy. -/
theorem setDeepGo_noTrap (keys : List String) (cur : JSLike) (lastKey : String)
    (value : JVal) (d : JVal) (tr : Bool)
    (h : setDeepGo cur keys lastKey value false = .ok (d, tr)) : tr = false := by
  induction keys generalizing cur d tr with
  | nil =>
    match cur with
    | .undefined => simp [setDeepGo] at h
    | .val .null => simp [setDeepGo] at h
    | .val (.bool _) => simp [setDeepGo] at h
    | .val (.num _) => simp [setDeepGo] at h
    | .val (.str _) => simp [setDeepGo] at h
    | .val (.arr es) =>
      cases hpi : parseIntOpt lastKey with
      | none => simp [setDeepGo, hpi] at h; exact h.2
      | some i =>
        by_cases hi : i < 0
        · simp [setDeepGo, hpi, hi] at h; exact h.2
        · simp [setDeepGo, hpi, hi] at h; exact h.2
    | .val (.obj fs) =>
      simp [setDeepGo] at h
      exact h.2
  | cons k rest ih =>
    match cur with
    | .undefined => simp [setDeepGo] at h
    | .val .null => simp [setDeepGo] at h
    | .val (.bool _) => simp [setDeepGo] at h
    | .val (.num _) => simp [setDeepGo] at h
    | .val (.str _) => simp [setDeepGo] at h
    | .val (.arr es) =>
      cases hpi : parseIntOpt k with
      | none =>
        cases rest <;> simp [setDeepGo, hpi, Except.map] at h
      | some i =>
        by_cases hi : i < 0
        · cases rest <;> simp [setDeepGo, hpi, hi, Except.map] at h
        · rw [setDeepGo] at h
          simp only [hpi, if_neg hi] at h
          cases hrec : setDeepGo (match (if es.length ≤ i.toNat then
              es ++ List.replicate (i.toNat + 1 - es.length) (JVal.obj []) else es).get? i.toNat with
              | some v => JSLike.val v
              | none => JSLike.undefined) rest lastKey value false with
          | error e => rw [hrec] at h; simp [Bind.bind, Except.bind] at h
          | ok p =>
            rw [hrec] at h
            simp only [Bind.bind, Except.bind, Except.ok.injEq, Prod.mk.injEq] at h
            have := ih _ _ _ hrec
            rw [← h.2, this]
            simp
    | .val (.obj fs) =>
      cases hl : lookupAssoc fs k with
      | some child =>
        rw [setDeepGo] at h
        simp only [hl] at h
        cases hrec : setDeepGo (.val child) rest lastKey value false with
        | error e => rw [hrec] at h; simp [Bind.bind, Except.bind] at h
        | ok p =>
          rw [hrec] at h
          simp only [Bind.bind, Except.bind, Except.ok.injEq, Prod.mk.injEq] at h
          have := ih _ _ _ hrec
          rw [← h.2, this]
      | none =>
        rw [setDeepGo] at h
        simp only [hl] at h
        cases hrec : setDeepGo (.val (.obj [])) rest lastKey value false with
        | error e => rw [hrec] at h; simp [Bind.bind, Except.bind] at h
        | ok p =>
          rw [hrec] at h
          simp only [Bind.bind, Except.bind, Except.ok.injEq, Prod.mk.injEq] at h
          have := ih _ _ _ hrec
          rw [← h.2, this]
          simp

/-- The retry loop of `#acquireLock`, entered at time `t` with enough
fuel, never exhausts its fuel; and when it raises the timeout error the
elapsed time exceeds `lockTimeout` but by at most one
`lockRetryInterval` (the check runs before each sleep, so the first
check after the deadline fires). -/
theorem acquireGo_spec (cfg : LockCfg) (start ctime : Nat)
    (n : Nat) :
    ∀ (t s : Nat), start ≤ t → t - start ≤ cfg.timeout + cfg.retryInterval →
      cfg.timeout < (t - start) + n * cfg.retryInterval →
      acquireGo cfg start ctime t s (n + 1) ≠ .fuelOut ∧
        (∀ e s2, acquireGo cfg start ctime t s (n + 1) = .timeout e s2 →
          cfg.timeout < e ∧ e ≤ cfg.timeout + cfg.retryInterval) := by
  induction n with
  | zero =>
    intro t s hts hinv hbound
    simp only [Nat.zero_mul, Nat.add_zero] at hbound
    by_cases hstale : cfg.maxAge * 1000 < t - ctime
    · rw [acquireGo]
      simp only [if_pos hstale]
      exact ⟨by simp, by intro e s2 h; cases h⟩
    · rw [acquireGo]
      simp only [if_neg hstale, if_pos hbound]
      refine ⟨by simp, ?_⟩
      intro e s2 h
      injection h with h1 h2
      exact ⟨h1 ▸ hbound, h1 ▸ hinv⟩
  | succ n ih =>
    intro t s hts hinv hbound
    by_cases hstale : cfg.maxAge * 1000 < t - ctime
    · rw [acquireGo]
      simp only [if_pos hstale]
      exact ⟨by simp, by intro e s2 h; cases h⟩
    · by_cases htm : cfg.timeout < t - start
      · rw [acquireGo]
        simp only [if_neg hstale, if_pos htm]
        refine ⟨by simp, ?_⟩
        intro e s2 h
        injection h with h1 h2
        exact ⟨h1 ▸ htm, h1 ▸ hinv⟩
      · rw [acquireGo]
        simp only [if_neg hstale, if_neg htm]
        have hts2 : start ≤ t + cfg.retryInterval := le_trans hts (Nat.le_add_right t _)
        have hmul : (n + 1) * cfg.retryInterval = n * cfg.retryInterval + cfg.retryInterval :=
          Nat.succ_mul n cfg.retryInterval
        rw [hmul] at hbound
        have hinv2 : (t + cfg.retryInterval) - start ≤ cfg.timeout + cfg.retryInterval := by omega
        have hbound2 : cfg.timeout < ((t + cfg.retryInterval) - start) + n * cfg.retryInterval := by
          have h1 : (t + cfg.retryInterval) - start = (t - start) + cfg.retryInterval := by omega
          omega
        exact ih (t + cfg.retryInterval) (s + 1) hts2 hinv2 hbound2

/-- Element-wise `filePath` equality of zipped equal-length lists agrees
with equality of the `filePath` projections. -/
theorem zipAll_filePath (s1 s2 : List Descriptor) (hlen : s1.length = s2.length) :
    ((s1.zip s2).all fun p => p.1.filePath == p.2.filePath) = true ↔
      s1.map Descriptor.filePath = s2.map Descriptor.filePath := by
  induction s1 generalizing s2 with
  | nil =>
    cases s2 with
    | nil => simp
    | cons b t2 => simp at hlen
  | cons a t1 ih =>
    cases s2 with
    | nil => simp at hlen
    | cons b t2 =>
      have hlen2 : t1.length = t2.length := by simpa using hlen
      simp only [List.zip_cons_cons, List.all_cons, List.map_cons, Bool.and_eq_true,
        beq_iff_eq, List.cons.injEq]
      rw [ih t2 hlen2]

/-- The `filePath` projection of a `descLE`-sorted list is `strLe`-sorted. -/
theorem sorted_map_filePath {l : List Descriptor} (h : List.Sorted descLE l) :
    List.Sorted strLe (l.map Descriptor.filePath) :=
  List.Pairwise.map Descriptor.filePath (fun _ _ hab => hab) h

theorem lookupAssoc_setAssoc_self {α : Type} (es : List (String × α)) (k : String) (v : α) :
    lookupAssoc (setAssoc es k v) k = some v := by
  induction es with
  | nil => simp [setAssoc, lookupAssoc]
  | cons e rest ih =>
    by_cases hk : e.1 = k
    · simp [setAssoc, hk, lookupAssoc]
    · simp [setAssoc, hk, lookupAssoc, ih]

theorem lookupAssoc_removeAssoc_self {α : Type} (es : List (String × α)) (k : String) :
    lookupAssoc (removeAssoc es k) k = none := by
  induction es with
  | nil => simp [removeAssoc, lookupAssoc]
  | cons e rest ih =>
    by_cases hk : e.1 = k
    · simp [removeAssoc, hk, ih]
    · simp [removeAssoc, hk, lookupAssoc, ih]

theorem lookupAssoc_none_iff {α : Type} (es : List (String × α)) (k : String) :
    lookupAssoc es k = none ↔ k ∉ es.map Prod.fst := by
  induction es with
  | nil => simp [lookupAssoc]
  | cons e rest ih =>
    obtain ⟨k1, v1⟩ := e
    simp only [List.map_cons, List.mem_cons, lookupAssoc]
    by_cases hk : k1 = k
    · simp [hk]
    · have hne : ¬ k = k1 := fun h => hk h.symm
      simp [hk, hne, ih]

theorem keys_setAssoc_of_none {α : Type} (es : List (String × α)) (k : String) (v : α)
    (h : lookupAssoc es k = none) :
    (setAssoc es k v).map Prod.fst = es.map Prod.fst ++ [k] := by
  induction es with
  | nil => simp [setAssoc]
  | cons e rest ih =>
    by_cases hk : e.1 = k
    · simp [lookupAssoc, hk] at h
    · simp [lookupAssoc, hk] at h
      simp [setAssoc, hk, ih h]

theorem keys_removeAssoc_sublist {α : Type} (es : List (String × α)) (k : String) :
    ((removeAssoc es k).map Prod.fst).Sublist (es.map Prod.fst) := by
  induction es with
  | nil => simp [removeAssoc]
  | cons e rest ih =>
    by_cases hk : e.1 = k
    · simp only [removeAssoc, if_pos hk, List.map_cons]
      exact ih.trans (List.sublist_cons_self _ _)
    · simp only [removeAssoc, if_neg hk, List.map_cons]
      exact ih.cons₂ _

/-! ## Claims -/

/-- Claim C4: for every attribute set (an insertion-ordered entry list
with duplicate-free attribute names) and every base key, the canonical
key built by `Config.#buildKeyWithAttributes` is independent of the
attribute insertion order: any two permutations of the same entries
serialize to the identical stored key, the attributes being emitted in
lexicographically sorted name order. -/
theorem buildKeyWithAttributes_perm_invariant (l1 l2 : AttrList) (key : String)
    (hp : l1.Perm l2) (hn : (l1.map Prod.fst).Nodup) :
    buildKeyWithAttributes l1 key = buildKeyWithAttributes l2 key := by
  unfold buildKeyWithAttributes
  cases l1 with
  | nil =>
    have h2 : l2 = [] := hp.symm.eq_nil
    subst h2
    rfl
  | cons a t1 =>
    cases l2 with
    | nil => exact absurd hp.length_eq (by simp)
    | cons b t2 =>
      simp only [List.isEmpty_cons, Bool.false_eq_true, if_false]
      have hsort : List.insertionSort attrLE (a :: t1) = List.insertionSort attrLE (b :: t2) := by
        apply sorted_perm_eq_of_nodup_names
        · exact (List.perm_insertionSort attrLE (a :: t1)).trans
            (hp.trans (List.perm_insertionSort attrLE (b :: t2)).symm)
        · exact List.sorted_insertionSort attrLE (a :: t1)
        · exact List.sorted_insertionSort attrLE (b :: t2)
        · exact (((List.perm_insertionSort attrLE (a :: t1)).map Prod.fst).nodup_iff).mpr hn
      rw [hsort]

/-- Witness for C4: the raw keys `{b=2&a=1}style` and `{a=1&b=2}style`
parse to permuted attribute sets with distinct names and build the same
stored key through the full `Config.#buildKey` pipeline (no flags). -/
theorem buildKeyWithAttributes_perm_invariant_witness :
    ([("b", "2"), ("a", "1")] : AttrList).Perm [("a", "1"), ("b", "2")] ∧
      (([("b", "2"), ("a", "1")] : AttrList).map Prod.fst).Nodup ∧
      buildKey noHandlers [] "\x7bb=2&a=1\x7dstyle" = buildKey noHandlers [] "\x7ba=1&b=2\x7dstyle" := by
  refine ⟨by decide, by decide, ?_⟩
  have h := buildKeyWithAttributes_perm_invariant [("b", "2"), ("a", "1")]
    [("a", "1"), ("b", "2")] "style" (by decide) (by decide)
  have e1 : buildKey noHandlers [] "\x7bb=2&a=1\x7dstyle" =
      buildKeyWithAttributes [("b", "2"), ("a", "1")] "style" := rfl
  have e2 : buildKey noHandlers [] "\x7ba=1&b=2\x7dstyle" =
      buildKeyWithAttributes [("a", "1"), ("b", "2")] "style" := rfl
  rw [e1, e2, h]

/-- Claim C5: an acquisition attempt that finds the sentinel present with
age strictly greater than `lockMaxAge` (seconds, compared in
milliseconds) deletes it exactly once and succeeds immediately — zero
retry sleeps, zero elapsed time, one unlink — rather than waiting for
`lockTimeout`. -/
theorem staleLock_broken_once_then_success (cfg : LockCfg) (start ctime fuel : Nat)
    (h : cfg.maxAge * 1000 < start - ctime) :
    acquireLock cfg false true start ctime (fuel + 1) = .success 0 0 1 := by
  unfold acquireLock
  simp only [Bool.false_eq_true, if_false, if_true]
  rw [acquireGo]
  simp [h]

/-- Witness for C5: with the default configuration (`lockMaxAge` 30s), a
sentinel created at time 0 observed at time 100000ms is stale; the
acquisition succeeds at once, breaking the lock exactly once. -/
theorem staleLock_broken_once_then_success_witness :
    acquireLock defaultLockCfg false true 100000 0 1 = .success 0 0 1 :=
  staleLock_broken_once_then_success defaultLockCfg 100000 0 0 (by decide)

/-- Counterexample for C6: with the default configuration (retry 100ms,
timeout 5000ms) and a fresh foreign lock held throughout, the retry loop
raises its timeout error only after 5100ms — the elapsed waiting exceeds
the global `lockTimeout` bound of 5000ms, refuting "never extends waiting
beyond that global bound". -/
theorem lockTimeout_waits_past_bound :
    acquireLock defaultLockCfg false true 0 0 100 = .timeout 5100 51 ∧
      ¬ (5100 ≤ defaultLockCfg.timeout) := ⟨rfl, by decide⟩

/-- Claim C6 (amended): in a static environment, every acquisition with
sufficient modelling fuel either succeeds or raises the reported timeout
error (never a silent abandonment), and the error is raised at the first
check after `lockTimeout` has elapsed; since checks are separated by
`lockRetryInterval` sleeps, the total waiting at failure exceeds
`lockTimeout` but by at most one `lockRetryInterval` — the waiting bound
is `lockTimeout + lockRetryInterval`, not `lockTimeout` itself. -/
theorem lockAcquire_timeout_bounded (cfg : LockCfg) (hs hp : Bool) (start ctime fuel : Nat)
    (hr : 0 < cfg.retryInterval) (hf : cfg.timeout < (fuel - 1) * cfg.retryInterval) :
    acquireLock cfg hs hp start ctime fuel ≠ .fuelOut ∧
      (∀ e s, acquireLock cfg hs hp start ctime fuel = .timeout e s →
        cfg.timeout < e ∧ e ≤ cfg.timeout + cfg.retryInterval) := by
  unfold acquireLock
  cases hs with
  | true => exact ⟨by simp, by intro e s h; simp at h⟩
  | false =>
    cases hp with
    | false => exact ⟨by simp, by intro e s h; simp at h⟩
    | true =>
      simp only [Bool.false_eq_true, if_false, if_true]
      cases fuel with
      | zero => exact absurd hf (by simp)
      | succ n =>
        have hn : cfg.timeout < (start - start) + n * cfg.retryInterval := by
          have h1 : n + 1 - 1 = n := rfl
          rw [h1] at hf
          omega
        exact acquireGo_spec cfg start ctime n start 0 (le_refl start) (by omega) hn

/-- Witness for C6 (amended): the defaults with fuel 100 satisfy the fuel
bound, so the acquisition cannot run out of fuel. -/
theorem lockAcquire_timeout_bounded_witness :
    acquireLock defaultLockCfg false true 0 0 100 ≠ .fuelOut :=
  (lockAcquire_timeout_bounded defaultLockCfg false true 0 0 100 (by decide) (by decide)).1

/-- Claim C9: `Config.#areArraysEqual` judges two target-descriptor lists
equal exactly when their `filePath` projections are permutations of each
other: permuted lists over the same paths are equal (so two ScopedConfig
instances bound to permuted target sets match the same reference
record), while lists of different length, or differing in some
descriptor path, are judged unequal. -/
theorem areArraysEqual_iff_path_perm (l1 l2 : List Descriptor) :
    areArraysEqual l1 l2 = true ↔
      (l1.map Descriptor.filePath).Perm (l2.map Descriptor.filePath) := by
  unfold areArraysEqual
  by_cases hlen : l1.length = l2.length
  · simp only [if_pos hlen]
    have hslen : (List.insertionSort descLE l1).length = (List.insertionSort descLE l2).length := by
      rw [List.length_insertionSort, List.length_insertionSort]
      exact hlen
    rw [zipAll_filePath _ _ hslen]
    constructor
    · intro h
      have p1 : (l1.map Descriptor.filePath).Perm
          ((List.insertionSort descLE l1).map Descriptor.filePath) :=
        ((List.perm_insertionSort descLE l1).map Descriptor.filePath).symm
      have p2 : ((List.insertionSort descLE l2).map Descriptor.filePath).Perm
          (l2.map Descriptor.filePath) :=
        (List.perm_insertionSort descLE l2).map Descriptor.filePath
      exact p1.trans (h ▸ p2)
    · intro hperm
      apply List.eq_of_perm_of_sorted (r := strLe)
      · exact ((List.perm_insertionSort descLE l1).map Descriptor.filePath).trans
          (hperm.trans ((List.perm_insertionSort descLE l2).map Descriptor.filePath).symm)
      · exact sorted_map_filePath (List.sorted_insertionSort descLE l1)
      · exact sorted_map_filePath (List.sorted_insertionSort descLE l2)
  · simp only [if_neg hlen]
    constructor
    · intro h
      cases h
    · intro hperm
      have := hperm.length_eq
      rw [List.length_map, List.length_map] at this
      exact absurd this hlen

/-- A direct-storage `Config` whose cache store holds `theme → "dark"`. -/
def c2cfg : ConfigS :=
  { flags := []
    args := .noArgs
    keyUpstreamToggle := true
    keyUpstreamThreshold := 3
    cache :=
      { proxyDoc := .obj [("theme", .str "dark")]
        underData := .obj [("theme", .str "dark")]
        aliased := true
        fileDoc := some (.obj [("theme", .str "dark")])
        fileMtime := 2
        lastModified := 2
        batchMode := false
        queuedSave := false }
    libraryStore := JsonFile.construct (some (.obj [])) 1 }

/-- Claim C2, evaluated at the failing input: on direct storage the read
half of `pop` works (`get('theme')` yields `"dark"`), but `pop` itself
raises a TypeError, because `Config.delete` invokes
`this.#getCache().delete(...)` and the `JsonFile` class defines no
`delete` method — so `pop` neither returns the prior value nor removes
the entry. -/
theorem configPop_direct_raises_typeError :
    jsonFileMethods.contains "delete" = false ∧
      Config.get noHandlers c2cfg "theme" = .ok (.val (.str "dark")) ∧
      Config.pop noHandlers c2cfg "theme" = .error .typeError :=
  ⟨rfl, rfl, rfl⟩

/-- Four distinct target descriptors. -/
def c3d1 : Descriptor := { filePath := "/lib/a.png", itemId := "i1" }

def c3d2 : Descriptor := { filePath := "/lib/b.png", itemId := "i2" }

def c3d3 : Descriptor := { filePath := "/lib/c.png", itemId := "i3" }

def c3d4 : Descriptor := { filePath := "/lib/d.png", itemId := "i4" }

/-- A `Config` bound to exactly 3 items (threshold 3, toggle on): direct
storage. -/
def c3direct : ConfigS :=
  { flags := []
    args := .itemList [c3d1, c3d2, c3d3]
    keyUpstreamToggle := true
    keyUpstreamThreshold := 3
    cache := JsonFile.construct (some (.obj [])) 1
    libraryStore := JsonFile.construct (some (.obj [])) 1 }

/-- A `Config` bound to 4 items (threshold 3, toggle on): upstream
storage. -/
def c3upstream : ConfigS :=
  { flags := []
    args := .itemList [c3d1, c3d2, c3d3, c3d4]
    keyUpstreamToggle := true
    keyUpstreamThreshold := 3
    cache := JsonFile.construct (some (.obj [])) 1
    libraryStore := JsonFile.construct (some (.obj [])) 1 }

/-- Claim C3, evaluated at the boundary: with `keyUpstreamThreshold = 3`,
the 3-item set routes to the direct store, where `set` then `get`
round-trips the value; the 4-item set routes to the upstream protocol,
where `set` succeeds (both reference and data entry are written to the
library store) but `get` raises a TypeError, because `#getUpstream`
calls `libraryConfig.getAll()` and the `JsonFile` class defines no
`getAll` method — so the stored value is not retrievable. -/
theorem configUpstream_get_raises_typeError :
    ((Config.set noHandlers "r1" c3direct "tag" (.str "done")).bind
        (fun c => Config.get noHandlers c "tag")) = .ok (.val (.str "done")) ∧
      Config.shouldUseUpstream c3direct = false ∧
      Config.shouldUseUpstream c3upstream = true ∧
      (Config.set noHandlers "r1" c3upstream "tag" (.str "done")).isOk = true ∧
      ((Config.set noHandlers "r1" c3upstream "tag" (.str "done")).bind
        (fun c => Config.get noHandlers c "tag")) = .error .typeError ∧
      jsonFileMethods.contains "getAll" = false :=
  ⟨rfl, rfl, rfl, rfl, rfl, rfl⟩

/-- A store constructed over the file `{}`, then externally rewritten to
`{"x": 1}` with a newer mtime, then one watcher tick. -/
def c7afterTick : JsonFileState :=
  JsonFile.watcherTick (JsonFile.externalWrite (JsonFile.construct (some (.obj [])) 10)
    (.obj [("x", .num 1)]) 20)

/-- Claim C7, evaluated at the failing input: the watcher tick does
observe the newer mtime and reloads — `this._data` holds the new
document and the recorded mtime advances — but a subsequent
`get("x")` still reads through the `data` Proxy created in the
constructor, which wraps the PREVIOUS document object (`loadSync`
replaced `this._data` rather than mutating it), so the reader sees
`undefined` instead of the reloaded value `1`.  A freshly constructed
store over the same file does see the value, confirming the file
contents. -/
theorem watcher_reload_invisible_to_readers :
    c7afterTick.underData = .obj [("x", .num 1)] ∧
      c7afterTick.lastModified = 20 ∧
      JsonFile.get c7afterTick "x" (.val .null) = .undefined ∧
      JsonFile.get (JsonFile.construct c7afterTick.fileDoc c7afterTick.fileMtime) "x"
          (.val .null) = .val (.num 1) :=
  ⟨rfl, rfl, rfl, rfl⟩

/-- A direct-storage `Config` over an empty document. -/
def c8cfg : ConfigS :=
  { flags := []
    args := .noArgs
    keyUpstreamToggle := true
    keyUpstreamThreshold := 3
    cache := JsonFile.construct (some (.obj [])) 1
    libraryStore := JsonFile.construct (some (.obj [])) 1 }

/-- Claim C8, evaluated at the failing input: on the empty document, the
multi-segment key `a/b` has no intermediate node `a`, so the traversal
inside `JsonFile.get` throws and the caught error is replaced by the
default `null` — not `undefined`.  `Config.setdefault` only stores when
the read is strictly `undefined`, so `setdefault('a/b', "v1")` returns
`null` and stores nothing (the state is returned unchanged), instead of
storing and returning `"v1"`. -/
theorem configSetdefault_missing_intermediate_noop :
    Config.get noHandlers c8cfg "a/b" = .ok (.val .null) ∧
      Config.setdefault noHandlers "r1" c8cfg "a/b" (.str "v1") = .ok (.val .null, c8cfg) :=
  ⟨rfl, rfl⟩

/-- A batch-off store whose document already has the top-level key `a`
(file in sync with memory). -/
def c1store : JsonFileState :=
  { proxyDoc := .obj [("a", .obj [])]
    underData := .obj [("a", .obj [])]
    aliased := true
    fileDoc := some (.obj [("a", .obj [])])
    fileMtime := 1
    lastModified := 1
    batchMode := false
    queuedSave := false }

/-- The store after `set('a/b', 1)`: mutated in memory only. -/
def c1after : JsonFileState :=
  { proxyDoc := .obj [("a", .obj [("b", .num 1)])]
    underData := .obj [("a", .obj [("b", .num 1)])]
    aliased := true
    fileDoc := some (.obj [("a", .obj [])])
    fileMtime := 1
    lastModified := 1
    batchMode := false
    queuedSave := false }

/-- Counterexample for C1: with batch mode off, `set('a/b', 1)` on a
document whose top-level key `a` already exists mutates only nested
objects, so the `data` Proxy's set trap never fires and no `save()` is
triggered: after the call the backing file still holds the old document
and does not reflect the mutated in-memory one. -/
theorem jsonFileSet_deep_no_save :
    JsonFile.set c1store "a/b" (.num 1) = .ok c1after ∧
      c1after.batchMode = false ∧
      c1after.fileDoc ≠ some c1after.proxyDoc := by
  refine ⟨rfl, rfl, ?_⟩
  intro h
  simp [c1after] at h

/-- Claim C1 (amended): with batch mode off, a `set(path, value)` call
persists to the backing file exactly when it fires the `data` Proxy's
top-level set trap.  Concretely, for a store whose document root is an
object: a single-segment path always triggers `save()` and the file then
reflects the mutated document; a multi-segment path whose first segment
is ABSENT also triggers it (via creation of the top-level intermediate,
whose queued asynchronous save writes the fully mutated document); but a
multi-segment path whose first segment already exists mutates memory
only and leaves the file untouched. -/
theorem jsonFileSet_persists_iff_toplevel_write (st st1 : JsonFileState)
    (fs : List (String × JVal)) (path : String) (v : JVal)
    (hb : st.batchMode = false) (hd : st.proxyDoc = .obj fs)
    (hset : JsonFile.set st path v = .ok st1) :
    (∀ k, splitPath path = [k] → st1.fileDoc = some st1.proxyDoc) ∧
      (∀ k k2 rest, splitPath path = k :: k2 :: rest → lookupAssoc fs k = none →
        st1.fileDoc = some st1.proxyDoc) ∧
      (∀ k k2 rest w, splitPath path = k :: k2 :: rest → lookupAssoc fs k = some w →
        st1.fileDoc = st.fileDoc) := by
  refine ⟨?_, ?_, ?_⟩
  · intro k hk
    simp only [JsonFile.set, setDeep] at hset
    rw [hk, hd] at hset
    simp only [List.dropLast_single, List.getLast?_singleton, Option.getD_some] at hset
    rw [show setDeepGo (.val (.obj fs)) [] k v true = .ok (.obj (setAssoc fs k v), true)
      from rfl] at hset
    simp only [Except.map, Except.ok.injEq] at hset
    rw [← hset]
    simp [JsonFile.onMutation, JsonFile.saveWrite, hb]
  · intro k k2 rest hk hnone
    simp only [JsonFile.set, setDeep] at hset
    rw [hk, hd] at hset
    have hdl : (k :: k2 :: rest).dropLast = k :: (k2 :: rest).dropLast := rfl
    have hgl : (k :: k2 :: rest).getLast? = (k2 :: rest).getLast? := rfl
    rw [hdl, hgl] at hset
    rw [setDeepGo] at hset
    simp only [hnone] at hset
    cases hrec : setDeepGo (.val (.obj [])) (k2 :: rest).dropLast
        (((k2 :: rest).getLast?).getD "") v false with
    | error e =>
      rw [hrec] at hset
      simp [Bind.bind, Except.bind, Except.map] at hset
    | ok p =>
      rw [hrec] at hset
      simp only [Bind.bind, Except.bind, Except.map, Except.ok.injEq] at hset
      rw [← hset]
      simp [JsonFile.onMutation, JsonFile.saveWrite, hb]
  · intro k k2 rest w hk hsome
    simp only [JsonFile.set, setDeep] at hset
    rw [hk, hd] at hset
    have hdl : (k :: k2 :: rest).dropLast = k :: (k2 :: rest).dropLast := rfl
    have hgl : (k :: k2 :: rest).getLast? = (k2 :: rest).getLast? := rfl
    rw [hdl, hgl] at hset
    rw [setDeepGo] at hset
    simp only [hsome] at hset
    cases hrec : setDeepGo (.val w) (k2 :: rest).dropLast
        (((k2 :: rest).getLast?).getD "") v false with
    | error e =>
      rw [hrec] at hset
      simp [Bind.bind, Except.bind, Except.map] at hset
    | ok p =>
      have hp2 : p.2 = false :=
        setDeepGo_noTrap (k2 :: rest).dropLast (.val w) (((k2 :: rest).getLast?).getD "")
          v p.1 p.2 hrec
      rw [hrec] at hset
      simp only [Bind.bind, Except.bind, Except.map, Except.ok.injEq] at hset
      rw [← hset]
      simp [JsonFile.onMutation, hp2]

/-- The store `c1store` after the single-segment `set('z', 2)`: mutated
and saved. -/
def c1zAfter : JsonFileState :=
  { proxyDoc := .obj [("a", .obj []), ("z", .num 2)]
    underData := .obj [("a", .obj []), ("z", .num 2)]
    aliased := true
    fileDoc := some (.obj [("a", .obj []), ("z", .num 2)])
    fileMtime := 2
    lastModified := 2
    batchMode := false
    queuedSave := false }

/-- Witness for C1 (amended): on the concrete store, the single-segment
`set('z', 2)` persists immediately — the resulting file equals the
mutated document. -/
theorem jsonFileSet_persists_iff_toplevel_write_witness :
    JsonFile.set c1store "z" (.num 2) = .ok c1zAfter ∧
      c1zAfter.fileDoc = some c1zAfter.proxyDoc :=
  ⟨rfl, (jsonFileSet_persists_iff_toplevel_write c1store c1zAfter [("a", .obj [])] "z"
    (.num 2) rfl rfl rfl).1 "z" rfl⟩

/-- Claim C10: the process-wide registry keeps at most one instance per
file path (duplicate-free path keys, preserved by every operation);
`getInstance` on an already-registered path returns that instance
unchanged with its `options` argument ignored (the result does not
depend on `o2`); after `close` deregisters the path, a later
`getInstance` creates a fresh instance whose configuration comes from
the new options. -/
theorem jsonFile_singleton_per_path (reg : Registry) (p : String) (o1 o2 : StoreOptions)
    (hinv : (reg.entries.map Prod.fst).Nodup) :
    (JsonFile.getInstance (JsonFile.getInstance reg p o1).2 p o2).1 =
        (JsonFile.getInstance reg p o1).1 ∧
      ((JsonFile.getInstance reg p o1).2.entries.map Prod.fst).Nodup ∧
      lookupAssoc (JsonFile.close (JsonFile.getInstance reg p o1).2 p).entries p = none ∧
      ((JsonFile.close (JsonFile.getInstance reg p o1).2 p).entries.map Prod.fst).Nodup ∧
      (JsonFile.getInstance (JsonFile.close (JsonFile.getInstance reg p o1).2 p) p o2).1.cfg =
        resolveCfg o2 := by
  cases hlook : lookupAssoc reg.entries p with
  | some inst =>
    have h1 : JsonFile.getInstance reg p o1 = (inst, reg) := by
      simp [JsonFile.getInstance, hlook]
    rw [h1]
    refine ⟨?_, hinv, ?_, ?_, ?_⟩
    · simp [JsonFile.getInstance, hlook]
    · simp only [JsonFile.close]
      exact lookupAssoc_removeAssoc_self _ _
    · simp only [JsonFile.close]
      exact List.Nodup.sublist (keys_removeAssoc_sublist _ _) hinv
    · simp [JsonFile.getInstance, JsonFile.close, lookupAssoc_removeAssoc_self]
  | none =>
    have h1 : JsonFile.getInstance reg p o1 =
        ({ sid := reg.nextSid, cfg := resolveCfg o1 },
          { entries := setAssoc reg.entries p { sid := reg.nextSid, cfg := resolveCfg o1 },
            nextSid := reg.nextSid + 1 }) := by
      simp [JsonFile.getInstance, hlook]
    rw [h1]
    have hpn : p ∉ reg.entries.map Prod.fst := (lookupAssoc_none_iff _ _).mp hlook
    have hn2 : ((setAssoc reg.entries p
        { sid := reg.nextSid, cfg := resolveCfg o1 }).map Prod.fst).Nodup := by
      rw [keys_setAssoc_of_none _ _ _ hlook]
      simp [List.nodup_append, hinv, hpn]
    refine ⟨?_, hn2, ?_, ?_, ?_⟩
    · simp [JsonFile.getInstance, lookupAssoc_setAssoc_self]
    · simp only [JsonFile.close]
      exact lookupAssoc_removeAssoc_self _ _
    · simp only [JsonFile.close]
      exact List.Nodup.sublist (keys_removeAssoc_sublist _ _) hn2
    · simp [JsonFile.getInstance, JsonFile.close, lookupAssoc_removeAssoc_self]

/-- The empty registry and two distinct option sets. -/
def c10reg : Registry := { entries := [], nextSid := 0 }

def c10o1 : StoreOptions :=
  { lockRetryInterval := some 50, lockTimeout := none, lockMaxAge := none,
    watchInterval := none }

def c10o2 : StoreOptions :=
  { lockRetryInterval := some 0, lockTimeout := some 9999, lockMaxAge := none,
    watchInterval := none }

/-- Witness for C10: starting from the empty registry, the second
`getInstance` for the same path returns the instance created by the
first one, even though it passes different options. -/
theorem jsonFile_singleton_per_path_witness :
    (JsonFile.getInstance (JsonFile.getInstance c10reg "/cfg.json" c10o1).2 "/cfg.json"
        c10o2).1 = (JsonFile.getInstance c10reg "/cfg.json" c10o1).1 :=
  (jsonFile_singleton_per_path c10reg "/cfg.json" c10o1 c10o2 (by simp [c10reg])).1

/-- Witness for C9: two concrete permuted descriptor lists (with
differing non-path fields) are judged equal by the set-equality check. -/
theorem areArraysEqual_iff_path_perm_witness :
    areArraysEqual [{ filePath := "/a", itemId := "1" }, { filePath := "/b", itemId := "2" }]
        [{ filePath := "/b", itemId := "9" }, { filePath := "/a", itemId := "8" }] = true :=
  (areArraysEqual_iff_path_perm
    [{ filePath := "/a", itemId := "1" }, { filePath := "/b", itemId := "2" }]
    [{ filePath := "/b", itemId := "9" }, { filePath := "/a", itemId := "8" }]).mpr (by decide)
